import Mathlib

/-!
Shallow embedding of the core logic of depthcharge-tools, and proofs about it.

The embedded pieces are:
* the kernel-partition attribute codec (depthcharge_tools/utils.py,
  depthcharge_partitions);
* the Architecture string subclass with group-based equality
  (depthcharge_tools/utils/platform.py and utils.py, class Architecture);
* the Kernel release ordering and installed-kernel enumeration
  (depthcharge_tools/utils/platform.py, class Kernel / installed_kernels);
* the kernel selection logic (depthcharge_tools/depthchargectl/_build.py,
  depthchargectl_build.kernel_version);
* the SysDevTree edge invariant (depthcharge_tools/utils/platform.py,
  SysDevTree.add);
* the BlockDevice.physical_parents worklist traversal
  (depthcharge_tools/utils.py, BlockDevice.physical_parents);
* the board resolution strategy (depthcharge_tools/depthchargectl/__init__.py,
  depthchargectl.board).

Python-level behaviours are modelled explicitly: fallible operations return
Option or Except (where none / error marks a raised exception), Python dict
and set iteration is made deterministic, and the regular-expression engine is
abstracted as a Boolean match relation passed in as a parameter.
-/

namespace DepthchargeTools

/-! ## Python string primitives

The Python string operations used by the embedded code (split, replace,
lower, startswith, partition, isnumeric, int) are given structurally
recursive definitions over the character list of a string, so that every
definition in this file evaluates inside the kernel.  All strings the tool
manipulates are ASCII.
-/

/-- Python s.split(sep) for a one-character separator: every occurrence
splits, empty pieces are kept. -/
def splitChars (sep : Char) : List Char → List (List Char)
  | [] => [[]]
  | c :: cs =>
    match splitChars sep cs with
    | [] => if c = sep then [[], []] else [[c]]
    | g :: gs => if c = sep then [] :: g :: gs else (c :: g) :: gs

def pySplit (s : String) (sep : Char) : List String :=
  (splitChars sep s.toList).map String.mk

/-- Python s.replace(a, b) for one-character arguments. -/
def pyReplace (s : String) (a b : Char) : String :=
  String.mk (s.toList.map (fun c => if c = a then b else c))

/-- Python s.lower() on ASCII strings. -/
def pyToLower (s : String) : String :=
  String.mk (s.toList.map Char.toLower)

/-- Python s.startswith(pre). -/
def pyStartsWith (s pre : String) : Bool :=
  pre.toList.isPrefixOf s.toList

/-- The tail after the first occurrence of sep in cs, or none when sep does
not occur. -/
def afterFirst (sep : List Char) : List Char → Option (List Char)
  | [] => if sep.isEmpty then some [] else none
  | c :: cs =>
    if sep.isPrefixOf (c :: cs) then some ((c :: cs).drop sep.length)
    else afterFirst sep cs

/-- Python s.partition(sep), keeping only the part after the separator
(which is "" when sep does not occur). -/
def pyPartitionAfter (s sep : String) : String :=
  match afterFirst sep.toList s.toList with
  | some r => String.mk r
  | none => ""

/-- Python str.isnumeric restricted to ASCII digits (all release strings the
tool handles are ASCII). -/
def pyIsNumeric (s : String) : Bool :=
  !s.toList.isEmpty && s.toList.all (·.isDigit)

/-- Python int(s) on a string of ASCII digits. -/
def pyToNat (s : String) : Nat :=
  s.toList.foldl (fun n c => n * 10 + (c.toNat - 48)) 0

/-- Python string comparison: lexicographic by code point, a strict prefix
smaller than its extensions. -/
def charListLt : List Char → List Char → Bool
  | [], [] => false
  | [], _ :: _ => true
  | _ :: _, [] => false
  | a :: as, b :: bs => if a.toNat = b.toNat then charListLt as bs else decide (a.toNat < b.toNat)

def pyStrLt (a b : String) : Bool :=
  charListLt a.toList b.toList

/-- Python sep.join(xs). -/
def joinSep (sep : String) : List String → String
  | [] => ""
  | [x] => x
  | x :: xs => x ++ sep ++ joinSep sep xs

/-! ## Kernel partition attribute codec

From depthcharge_tools/utils.py, depthcharge_partitions:
    priority = (attr) & 0xF
    tries = (attr >> 4) & 0xF
    successful = (attr >> 8) & 0x1
The successful field is an integer 0 or 1 in the source; the spec reads it as
a boolean, with 0 = false and 1 = true.
-/

structure PartAttrs where
  priority : Nat
  tries : Nat
  successful : Nat
deriving DecidableEq

def decodeAttr (attr : Nat) : PartAttrs :=
  { priority := attr &&& 0xF
    tries := (attr >>> 4) &&& 0xF
    successful := (attr >>> 8) &&& 0x1 }

/-- Modelled from the spec: no packing function exists under src/ (the
attribute field is only ever written through external cgpt flags), so the
encoder is taken from the spec bit layout in section 3: bits 0-3 priority,
bits 4-7 tries, bit 8 successful. -/
def encodeAttr (a : PartAttrs) : Nat :=
  a.priority ||| (a.tries <<< 4) ||| (a.successful <<< 8)

/-! ## Architecture

From depthcharge_tools/utils/platform.py, class Architecture (the copy in
utils.py is identical).  Architecture is a str subclass; membership tests
against the group lists compare the literal strings, while == between two
Architecture values first looks for a group containing both.
-/

def arm_32 : List String := ["arm"]
def arm_64 : List String := ["arm64", "aarch64"]
def x86_32 : List String := ["i386", "x86"]
def x86_64 : List String := ["x86_64", "amd64"]

def archGroups : List (List String) := [arm_32, arm_64, x86_32, x86_64]

def archEq (a b : String) : Bool :=
  archGroups.any (fun g => g.contains a && g.contains b) || (a == b)

def archMkimage (a : String) : Option String :=
  if arm_32.contains a then some "arm"
  else if arm_64.contains a then some "arm64"
  else if x86_32.contains a then some "x86"
  else if x86_64.contains a then some "x86_64"
  else none

/-! ## Kernel release ordering

From depthcharge_tools/utils/platform.py, class Kernel.  A release part is
the Python tuple
    (not (dot.startswith("rc") or dot.startswith("trunk")),
     int(dot) if dot.isnumeric() else -1,
     str(dot))
and lists of (lists of) such tuples are compared with Python lexicographic
list comparison.  A Kernel whose release is None raises AttributeError from
_release_parts; that exception is modelled as the value none.
-/

structure Kernel where
  release : Option String
  kernel : String
  initrd : Option String := none
  fdtdir : Option String := none
deriving DecidableEq

/-- One component of a release version: the Python triple
(is-not-rc-or-trunk, numeric value or -1, raw string). -/
abbrev RelPart := Bool × Int × String

def relPartOf (dot : String) : RelPart :=
  (!(pyStartsWith dot "rc" || pyStartsWith dot "trunk"),
   if pyIsNumeric dot then (pyToNat dot : Int) else -1,
   dot)

def releasePartsStr (r : String) : List (List RelPart) :=
  (pySplit r '-').map (fun dash => (pySplit dash '.').map relPartOf)

def releaseParts (k : Kernel) : Option (List (List RelPart)) :=
  k.release.map releasePartsStr

/-- Python list comparison: skip the common prefix of equal elements, then
compare the first differing pair, with a shorter list less than its
extensions. -/
def pyListLt (lt : α → α → Bool) (eq : α → α → Bool) : List α → List α → Bool
  | [], [] => false
  | [], _ :: _ => true
  | _ :: _, [] => false
  | a :: as, b :: bs => if eq a b then pyListLt lt eq as bs else lt a b

/-- Python comparison of the release-part triples: lexicographic on
(Bool, Int, String) with False < True. -/
def relPartLt (x y : RelPart) : Bool :=
  if x.1 = y.1 then
    if x.2.1 = y.2.1 then pyStrLt x.2.2 y.2.2 else decide (x.2.1 < y.2.1)
  else decide (x.1 = false)

def relPartEq (x y : RelPart) : Bool := decide (x = y)

def relListLt (a b : List RelPart) : Bool := pyListLt relPartLt relPartEq a b

def relListEq (a b : List RelPart) : Bool := decide (a = b)

def relListListLt (a b : List (List RelPart)) : Bool := pyListLt relListLt relListEq a b

/-- The padding element (True, -1, "") used by Kernel._comparable_parts. -/
def relPad : RelPart := (true, -1, "")

/-- Kernel._comparable_parts: pad the zipped inner lists to equal length,
then pad the outer lists with [[relPad]]. -/
def comparableParts (s o : List (List RelPart)) :
    List (List RelPart) × List (List RelPart) :=
  let common := min s.length o.length
  let pads := (s.zip o).map (fun (si, oi) =>
    (si ++ List.replicate (oi.length - si.length) relPad,
     oi ++ List.replicate (si.length - oi.length) relPad))
  let s1 := pads.map Prod.fst ++ s.drop common
  let o1 := pads.map Prod.snd ++ o.drop common
  (s1 ++ List.replicate (o1.length - s1.length) [relPad],
   o1 ++ List.replicate (s1.length - o1.length) [relPad])

/-- Kernel.__lt__; none models the AttributeError raised when either release
is None. -/
def kernelLt (a b : Kernel) : Option Bool := do
  let s ← releaseParts a
  let o ← releaseParts b
  let (s1, o1) := comparableParts s o
  pure (relListListLt s1 o1)

/-- Kernel.__gt__; Python s > o on lists is o < s. -/
def kernelGt (a b : Kernel) : Option Bool := do
  let s ← releaseParts a
  let o ← releaseParts b
  let (s1, o1) := comparableParts s o
  pure (relListListLt o1 s1)

/-- One step of CPython max: replace the current best when item > best;
none propagates an exception raised by an earlier comparison or by this
one. -/
def pyMaxStep (acc : Option Kernel) (y : Kernel) : Option Kernel :=
  acc.bind (fun a => (kernelGt y a).map (fun g => if g then y else a))

/-- CPython max over a nonempty iterable: start from the first element,
replace the current best whenever item > best.  none models an exception
raised by one of the > comparisons. -/
def pyMax1 (x : Kernel) (xs : List Kernel) : Option Kernel :=
  xs.foldl pyMaxStep (some x)

/-! ## Installed kernel enumeration

From depthcharge_tools/utils/platform.py, installed_kernels.  The filesystem
probes are passed in as listings: the regular file names under /boot, the
directory names under /usr/lib and the entry names under /boot/dtbs.  Python
dicts (which installed_kernels keys by release string or by None) are
modelled as association lists with insertion-order semantics: a new key is
appended, an existing key keeps its position and gets the new value.
-/

def dictInsert (k : Option String) (v : String)
    (d : List (Option String × String)) : List (Option String × String) :=
  if (d.lookup k).isSome then
    d.map (fun kv => if kv.1 = k then (kv.1, v) else kv)
  else d ++ [(k, v)]

def bareKernelNames : List String := ["vmlinux", "vmlinuz", "Image", "zImage", "bzImage"]

def scanBootKernels (bootFiles : List String) : List (Option String × String) :=
  bootFiles.foldl
    (fun d f =>
      let d := if pyStartsWith f "vmlinuz-" || pyStartsWith f "vmlinux-" then
          dictInsert (some (pyPartitionAfter f "-")) ("/boot/" ++ f) d
        else d
      if bareKernelNames.contains f then dictInsert none ("/boot/" ++ f) d else d)
    []

def scanBootInitrds (bootFiles : List String) : List (Option String × String) :=
  bootFiles.foldl
    (fun d f =>
      let d := if pyStartsWith f "initrd-" || pyStartsWith f "initrd.img-" then
          dictInsert (some (pyPartitionAfter f "-")) ("/boot/" ++ f) d
        else d
      if f = "initrd" || f = "initrd.img" then dictInsert none ("/boot/" ++ f) d else d)
    []

def scanFdtdirs (usrLibDirs : List String) (dtbsEntries : List String)
    (kernels : List (Option String × String)) : List (Option String × String) :=
  let d := usrLibDirs.foldl
    (fun d n =>
      if pyStartsWith n "linux-image-" then
        dictInsert (some (pyPartitionAfter n "linux-image-")) ("/usr/lib/" ++ n) d
      else d)
    []
  dtbsEntries.foldl
    (fun d n =>
      if (kernels.lookup (some n)).isSome then
        dictInsert (some n) ("/boot/dtbs/" ++ n) d
      else dictInsert none "/boot/dtbs" d)
    d

def installedKernels (bootFiles usrLibDirs dtbsEntries : List String) : List Kernel :=
  let kernels := scanBootKernels bootFiles
  let initrds := scanBootInitrds bootFiles
  let fdtdirs := scanFdtdirs usrLibDirs dtbsEntries kernels
  kernels.map (fun kv =>
    { release := kv.1
      kernel := kv.2
      initrd := initrds.lookup kv.1
      fdtdir := fdtdirs.lookup kv.1 })

/-! ## Kernel selection

From depthcharge_tools/depthchargectl/_build.py,
depthchargectl_build.kernel_version.  When no version is requested and no
kernel is installed, the function falls through both branches and executes
"return kernel" with the local variable unbound: Python raises
UnboundLocalError.  A comparison failure inside max(kernels) raises
AttributeError (modelled through pyMax1 returning none).
-/

inductive PyErr where
  | valueError (msg : String)
  | attributeError
  | unboundLocal
deriving DecidableEq

def kernel_version (kernels : List Kernel) (kv : Option String) : Except PyErr Kernel :=
  match kv with
  | some v =>
    match kernels.filter (fun k => k.release == some v) with
    | [] => .error (.valueError
        ("Could not find an installed kernel for version '" ++ v ++ "'."))
    | k :: _ => .ok k
  | none =>
    match kernels with
    | [] => .error .unboundLocal
    | k :: ks =>
      match pyMax1 k ks with
      | some m => .ok m
      | none => .error .attributeError

/-! ## SysDevTree edge invariant

From depthcharge_tools/utils/platform.py, SysDevTree.add:
    def add(self, child, parent):
        if child.exists() and parent.exists():
            if child != parent:
                self[child].add(parent)
Each call re-checks existence against the live device directory; a build is a
sequence of add calls, each carrying the existence snapshot seen by that
call.  Devices are identified by their path strings.
-/

structure AddReq where
  ex : String → Bool
  child : String
  parent : String

def sysAdd (t : List (String × String)) (r : AddReq) : List (String × String) :=
  if r.ex r.child && r.ex r.parent then
    if r.child ≠ r.parent then
      if (r.child, r.parent) ∈ t then t else t ++ [(r.child, r.parent)]
    else t
  else t

/-- A build (or forced rebuild) starts from an empty tree and performs its
add calls in order. -/
def buildTree (reqs : List AddReq) : List (String × String) :=
  reqs.foldl sysAdd []

/-! ## BlockDevice.physical_parents

From depthcharge_tools/utils.py:
    def physical_parents(self):
        if self.path.name in self._physicals:
            return [self]
        parents = set(self._parents[self.path.name])
        while parents - self._physicals:
            for p in parents - self._physicals:
                parents.remove(p)
                parents.update(self._parents.get(p, set()))
        ...
        for p in sorted(parents): ...
The graph (class attributes _parents/_physicals) is a value here.  One pass
of the while body snapshots the non-physical frontier and processes its
elements sequentially (Python set iteration order is unspecified; it is
determinized as the sorted order).  The source loop has no fuel: it is
modelled with explicit fuel, where running out of every fuel bound means the
Python loop never terminates.  The final DiskDevice constructions on the
surviving names sit inside try/except and silently discard any name whose
construction fails (a device that disappeared from /dev); that success is
the devOk predicate, so the result is the sorted surviving names filtered
by devOk.  The early return [self] for a physical device reuses the already
constructed object and performs no construction.
-/

structure DevGraph where
  parents : String → Finset String
  physicals : Finset String

def passStep (g : DevGraph) (X : Finset String) : Finset String :=
  ((X \ g.physicals).sort (· ≤ ·)).foldl (fun Y p => (Y.erase p) ∪ g.parents p) X

def loopFuel (g : DevGraph) : Nat → Finset String → Option (Finset String)
  | 0, _ => none
  | n + 1, X => if X \ g.physicals = ∅ then some X else loopFuel g n (passStep g X)

def physicalParentsFuel (g : DevGraph) (devOk : String → Bool) (x : String) (n : Nat) :
    Option (List String) :=
  if x ∈ g.physicals then some [x]
  else (loopFuel g n (g.parents x)).map (fun X => (X.sort (· ≤ ·)).filter devOk)

/-- The while loop terminates on this graph and device: some fuel bound is
enough. -/
def physicalParentsTerminates (g : DevGraph) (devOk : String → Bool) (x : String) : Prop :=
  ∃ n, (physicalParentsFuel g devOk x n).isSome

/-- Reachability along child-to-parent edges of the device graph. -/
inductive Reaches (g : DevGraph) : String → String → Prop where
  | refl (x : String) : Reaches g x x
  | step {c p q : String} : p ∈ g.parents c → Reaches g p q → Reaches g c q

def ReachesPhysical (g : DevGraph) (x : String) : Prop :=
  ∃ q, Reaches g x q ∧ q ∈ g.physicals

/-! ## Board resolution

From depthcharge_tools/depthchargectl/__init__.py, depthchargectl.board.
A Board keeps the raw configuration values used by resolution; the Python
regular-expression engine (re.match for hwid-match patterns, compiled
dt-compatible patterns with fullmatch) is abstracted as Boolean relations
taking the raw pattern and the probed string, passed to the resolver as
parameters.
-/

structure Board where
  codename : Option String := none
  arch : Option String := none
  hwid_match : Option String := none
  dt_compatible : Option String := none
deriving DecidableEq

/-- Board.hwid_match property: falsy (absent or empty) patterns compile to
None. -/
def Board.hwidRe (b : Board) : Option String :=
  match b.hwid_match with
  | none => none
  | some p => if p = "" then none else some p

/-- Board.dt_compatible property, keeping the raw pattern (the rev/sku
expansion rewrites the pattern before compiling; matching is abstract here). -/
def Board.dtRe (b : Board) : Option String :=
  match b.dt_compatible with
  | none => none
  | some p => if p = "" then none else some p

inductive BoardResult where
  | board (sect : String) (b : Board)
  | noBoard
  | errUnknownCodename
  | errAmbiguousCodename (candidates : List (Option String))
  | errCouldNotDetect
  | errUnboundLocal
deriving DecidableEq

/-- str(codename).lower().replace('-', '_').split('_') -/
def cnParts (codename : String) : List String :=
  pySplit (pyReplace (pyToLower codename) '-' '_') '_'

/-- Python str.rpartition(sep) first component for a one-character sep:
everything before the last occurrence of sep, or "" when sep does not
occur. -/
def rpartitionHead (s : String) (sep : Char) : String :=
  match pySplit s sep with
  | [] => ""
  | [_] => ""
  | ps => joinSep (String.mk [sep]) ps.dropLast

/-- The fuzzy suffix-alignment loop of codename_match: walk the candidate's
matchparts from the end, decrementing idx on a match of parts[idx] (or on
the historical ("x86", "amd64") alias), popping one matchpart per round,
until matchparts or the index run out.  revMatch is matchparts reversed. -/
def fuzzyIdx (parts : List String) (revMatch : List String) (idx : Int) : Int :=
  match revMatch with
  | [] => idx
  | m :: rest =>
    if parts.isEmpty || idx < 0 then idx
    else
      let p := parts.getD idx.toNat ""
      fuzzyIdx parts rest (if p == m || (p == "x86" && m == "amd64") then idx - 1 else idx)

/-- A codename-match score: primary the leftover index (lower is better),
secondary a tie-break where none models float("inf"). -/
abbrev CnScore := Int × Option Nat

def secLtB : Option Nat → Option Nat → Bool
  | some a, some b => a < b
  | some _, none => true
  | none, _ => false

def scoreLtB (a b : CnScore) : Bool :=
  decide (a.1 < b.1) || (decide (a.1 = b.1) && secLtB a.2 b.2)

/-- codename_match from depthchargectl.board; the item none is the synthetic
no-match sentinel. -/
def cnScore (catalog : List (String × Board)) (parts : List String) :
    Option (String × Board) → CnScore
  | none => ((parts.length : Int) - 1, some 0)
  | some (sect, b) =>
    let matchparts := pySplit sect '/' ++
      (match b.codename with
       | none => []
       | some cn => cnParts cn)
    let parent := rpartitionHead sect '/'
    let excluded := match catalog.lookup parent with
      | some pb => pb.codename == b.codename
      | none => false
    if excluded then ((parts.length : Int) - 1, none)
    else (fuzzyIdx parts matchparts.reverse ((parts.length : Int) - 1),
          some (pySplit sect '/').length)

def cnItems (catalog : List (String × Board)) : List (Option (String × Board)) :=
  none :: catalog.map some

def minScore (l : List CnScore) (init : CnScore) : CnScore :=
  l.foldl (fun a b => if scoreLtB b a then b else a) init

/-- The minimal codename-match score over the sentinel and all catalog
entries (the key selected by min(match_groups.items())). -/
def cnBest (catalog : List (String × Board)) (parts : List String) : CnScore :=
  minScore ((cnItems catalog).map (cnScore catalog parts)) (cnScore catalog parts none)

/-- The group of minimally-scored items, in catalog iteration order. -/
def cnMatches (catalog : List (String × Board)) (parts : List String) :
    List (Option (String × Board)) :=
  (cnItems catalog).filter (fun it => decide (cnScore catalog parts it = cnBest catalog parts))

/-- The explicit-codename phase of depthchargectl.board: zero matches or a
tie with the sentinel is the unknown-codename error, several matches the
ambiguous-codename error, and a unique match is returned. -/
def boardByCodename (catalog : List (String × Board)) (codename : String) : BoardResult :=
  if cnMatches catalog (cnParts codename) = [] ∨ none ∈ cnMatches catalog (cnParts codename)
  then .errUnknownCodename
  else if 1 < (cnMatches catalog (cnParts codename)).length then
    .errAmbiguousCodename
      ((cnMatches catalog (cnParts codename)).filterMap (Option.map (fun sb => sb.2.codename)))
  else
    match cnMatches catalog (cnParts codename) with
    | some (s, b) :: _ => .board s b
    | _ => .errUnknownCodename

/-- The hwid phase predicate: bool(re.match(board.hwid_match, hwid)), with a
raised TypeError (pattern None) treated as no match. -/
def hwidMatches (reMatch : String → String → Bool) (hwid : String) (b : Board) : Bool :=
  match b.hwidRe with
  | none => false
  | some p => reMatch p hwid

/-- compat_preference from the device-tree phase: the first component models
the int-or-float("inf") index (none is inf), the second the Python tie-break
integer. -/
def dtPref (reFullmatch : String → String → Bool) (compatibles : List String) :
    Option (String × Board) → Option Nat × Int
  | none => (some compatibles.length, 0)
  | some (sect, b) =>
    match b.dtRe with
    | none => (none, 0)
    | some p =>
      match compatibles.findIdx? (fun c => reFullmatch p c) with
      | some i => (some i, -(pySplit sect '/').length)
      | none => (none, -1)

def dtPrefLtB (a b : Option Nat × Int) : Bool :=
  secLtB a.1 b.1 || (decide (a.1 = b.1) && decide (a.2 < b.2))

/-- min((None, *boards.items()), key=compat_preference): Python min keeps
the first minimal element, so the fold starts from the sentinel and replaces
only on strict improvement. -/
def dtPhase (reFullmatch : String → String → Bool) (catalog : List (String × Board))
    (compatibles : List String) : Option (String × Board) :=
  (catalog.map some).foldl
    (fun acc it =>
      if dtPrefLtB (dtPref reFullmatch compatibles it) (dtPref reFullmatch compatibles acc)
      then it else acc)
    none

/-- The full resolution strategy of depthchargectl.board, with probes as
parameters: codename is the explicit/configured codename ("" when absent),
hwid and compatibles are the hardware probes (none when unavailable),
isCrosBoot the ChromeOS-boot probe and machine the platform.machine()
value.  reMatch and reFullmatch give the abstract regex semantics. -/
def resolveBoard (reMatch reFullmatch : String → String → Bool)
    (catalog : List (String × Board)) (codename : String) (hwid : Option String)
    (compatibles : Option (List String)) (isCrosBoot : Bool) (machine : String) :
    BoardResult :=
  if codename = "None" ∨ codename = "none" then .noBoard
  else if codename ≠ "" then boardByCodename catalog codename
  else
    let hwidHits := match hwid with
      | some h => catalog.filter (fun sb => hwidMatches reMatch h sb.2)
      | none => []
    match hwidHits with
    | (s, b) :: _ => .board s b
    | [] =>
      let dtHit := match compatibles with
        | some cs => dtPhase reFullmatch catalog cs
        | none => none
      match dtHit with
      | some (s, b) => .board s b
      | none =>
        if !isCrosBoot then .noBoard
        else
          let sectname : Option String :=
            if arm_32.contains machine then some "boards/arm"
            else if arm_64.contains machine then some "boards/arm64"
            else if x86_32.contains machine then some "boards/x86"
            else if x86_64.contains machine then some "boards/amd64"
            else none
          match sectname with
          | none => .errUnboundLocal
          | some sn =>
            match catalog.lookup sn with
            | some b => .board sn b
            | none => .errCouldNotDetect

/-! ## Concrete scenario data -/

/-- A versioned kernel installed as /boot/vmlinuz-release. -/
def mkK (r : String) : Kernel := ⟨some r, "/boot/vmlinuz-" ++ r, none, none⟩

/-- An unversioned kernel, as produced for a bare /boot/vmlinuz. -/
def bareK : Kernel := ⟨none, "/boot/vmlinuz", none, none⟩

/-- A regex matcher that never matches (all patterns in the scenarios below
are absent, so it is never consulted). -/
def reFalse : String → String → Bool := fun _ _ => false

def cexB1 : Board := { codename := some "reef" }
def cexB2 : Board := { codename := some "coral-reef" }

/-- A catalog where a second board's codename parts suffix-overlap the first
board's codename and its section path is shallower. -/
def cexCatalog : List (String × Board) := [("boards/x86/b1", cexB1), ("boards/b2", cexB2)]

def c6reef : Board := { codename := some "reef" }
def c6rev2 : Board := { codename := some "reef-rev2" }

/-- The reef / reef-rev2 scenario, with the rev2 profile the more specific
child section of the reef profile. -/
def c6Catalog : List (String × Board) := [("boards/x86/reef", c6reef), ("boards/x86/reef/rev2", c6rev2)]

def c3x86 : Board := { arch := some "x86_64" }
def c3reef : Board := { codename := some "reef", arch := some "x86_64" }
def c3amd : Board := { arch := some "x86_64" }

/-- The generic-fallback scenario catalog: a generic boards/x86 section with
arch x86_64 and a boards/x86/reef child. -/
def c3Catalog : List (String × Board) := [("boards/x86", c3x86), ("boards/x86/reef", c3reef)]

/-- The same catalog extended with the boards/amd64 generic section. -/
def c3Catalog2 : List (String × Board) := c3Catalog ++ [("boards/amd64", c3amd)]

def wReef : Board := { codename := some "reef" }

/-- A simple one-board catalog for witnessing codename resolution. -/
def wCatalog : List (String × Board) := [("boards/x86/reef", wReef)]

/-- A device graph with a cycle among non-physical devices: x depends on a,
and a depends on itself. -/
def cycG : DevGraph :=
  { parents := fun s => if s = "x" then {"a"} else if s = "a" then {"a"} else ∅
    physicals := ∅ }

/-- An acyclic device graph: dm0 is backed by the physical disk sda. -/
def g7 : DevGraph :=
  { parents := fun s => if s = "dm0" then {"sda"} else ∅
    physicals := {"sda"} }

/-- A rank function witnessing that g7 has no cycles among non-physical
devices. -/
def rank7 : String → Nat := fun s => if s = "dm0" then 1 else 0

/-- A DiskDevice-construction probe under which every device name still
constructs successfully. -/
def wOk : String → Bool := fun _ => true

/-- A single add request whose snapshot sees both devices. -/
def wReq : AddReq :=
  { ex := fun s => s == "/dev/sda" || s == "/dev/sda1"
    child := "/dev/sda1"
    parent := "/dev/sda" }

/-! ## Theorems -/

/-- C1: decoding the packed kernel-partition attribute field produced by
encoding attrs yields attrs back whenever priority and tries lie in [0,15]
and successful in {0,1}; moreover decode(0x000) has priority 0, tries 0 and
successful 0 (false), and decode(0x1F0) has priority 0, tries 15 and
successful 1 (true). -/
theorem C1_attr_codec_roundtrip (a : PartAttrs) (hp : a.priority ≤ 15)
    (ht : a.tries ≤ 15) (hs : a.successful ≤ 1) :
    decodeAttr (encodeAttr a) = a ∧
    decodeAttr 0x000 = ⟨0, 0, 0⟩ ∧ decodeAttr 0x1F0 = ⟨0, 15, 1⟩ := by
  have key : ∀ p, p ≤ 15 → ∀ t, t ≤ 15 → ∀ s, s ≤ 1 →
      decodeAttr (encodeAttr ⟨p, t, s⟩) = ⟨p, t, s⟩ := by decide
  obtain ⟨p, t, s⟩ := a
  exact ⟨key p hp t ht s hs, by decide, by decide⟩

/-- Witness for C1 at attrs = (priority 7, tries 15, successful 1). -/
theorem C1_attr_codec_roundtrip_witness :
    decodeAttr (encodeAttr ⟨7, 15, 1⟩) = ⟨7, 15, 1⟩ :=
  (C1_attr_codec_roundtrip ⟨7, 15, 1⟩ (by decide) (by decide) (by decide)).1

/-- C4 counterexample: Architecture("arm64") == Architecture("aarch64") does
not evaluate to false; both literals belong to the arm_64 group, so the
group-based __eq__ returns True. -/
theorem C4_arch_eq_counterexample : archEq "arm64" "aarch64" ≠ false := by decide

/-- C4 (amended): Architecture("arm64") == Architecture("aarch64") evaluates
to true because both belong to the arm_64 group, and the mkimage property of
both values equals "arm64"; Architecture("x86_64") == Architecture("amd64")
also evaluates to true because both belong to the x86_64 group. -/
theorem C4_arch_group_equality :
    archEq "arm64" "aarch64" = true ∧
    archMkimage "arm64" = some "arm64" ∧
    archMkimage "aarch64" = some "arm64" ∧
    archEq "x86_64" "amd64" = true := by decide

/-- C5: under the Kernel release ordering (split on dash then dot, compare
the (not-rc-or-trunk, numeric-or-minus-one, raw) triples lexicographically,
pad missing components), 5.10.0 > 5.9.0, 5.9.0 > 5.9.0-rc1 and
5.9.0-rc2 > 5.9.0-rc1. -/
theorem C5_kernel_release_ordering :
    kernelGt (mkK "5.10.0") (mkK "5.9.0") = some true ∧
    kernelGt (mkK "5.9.0") (mkK "5.9.0-rc1") = some true ∧
    kernelGt (mkK "5.9.0-rc2") (mkK "5.9.0-rc1") = some true := by decide

/-- C6: with the catalog holding profile reef and its more specific child
profile reef-rev2, resolving the explicit codename "reef" unambiguously
returns the reef profile, and resolving "reef-rev2" returns the reef-rev2
profile. -/
theorem C6_reef_rev2_resolution :
    boardByCodename c6Catalog "reef" = .board "boards/x86/reef" c6reef ∧
    boardByCodename c6Catalog "reef-rev2" = .board "boards/x86/reef/rev2" c6rev2 := by
  decide

/-- C9: selecting a kernel by explicit version returns the installed kernel
with exactly that release and fails with the typed "could not find an
installed kernel" ValueError when absent; selecting the default returns the
maximum installed kernel; but with no version requested and no kernel
installed the code falls off both branches and raises UnboundLocalError
instead of a typed "no installed kernel" error. -/
theorem C9_kernel_version_selection :
    kernel_version [] none = .error .unboundLocal ∧
    kernel_version [] (some "5.9.0") =
      .error (.valueError "Could not find an installed kernel for version '5.9.0'.") ∧
    kernel_version [mkK "5.9.0", mkK "5.10.0"] (some "5.9.0") = .ok (mkK "5.9.0") ∧
    kernel_version [mkK "5.9.0", mkK "5.10.0"] none = .ok (mkK "5.10.0") :=
  ⟨rfl, rfl, rfl, rfl⟩

/-- C3 counterexample: in the scenario (catalog with generic boards/x86 of
arch x86_64 plus boards/x86/reef, ChromeOS boot, machine x86_64, no
codename, no HWID match, no device-tree match) resolution does not return
the boards/x86 entry. -/
theorem C3_generic_fallback_counterexample :
    resolveBoard reFalse reFalse c3Catalog "" (some "TESTHWID") (some ["acme,board"])
      true "x86_64" ≠ .board "boards/x86" c3x86 := by decide

/-- C3 (amended): in that scenario the code maps the x86_64 machine to the
generic section name boards/amd64, so with only boards/x86 present it fails
with the could-not-detect error; when the catalog also holds a boards/amd64
section, that entry is returned. -/
theorem C3_generic_fallback_amd64 :
    resolveBoard reFalse reFalse c3Catalog "" (some "TESTHWID") (some ["acme,board"])
      true "x86_64" = .errCouldNotDetect ∧
    resolveBoard reFalse reFalse c3Catalog2 "" (some "TESTHWID") (some ["acme,board"])
      true "x86_64" = .board "boards/amd64" c3amd := by decide

/-- C2 counterexample: with distinct explicit codenames reef (B1) and
coral-reef (B2), where B2 suffix-overlaps B1 at a shallower section path,
resolving explicit codename reef returns B2, not B1 and not an error. -/
theorem C2_codename_counterexample :
    cexCatalog.lookup "boards/x86/b1" = some cexB1 ∧
    cexB1.codename = some "reef" ∧ cexB2.codename = some "coral-reef" ∧
    boardByCodename cexCatalog "reef" = .board "boards/b2" cexB2 := by decide

/-! ### C8: SysDevTree edge invariant -/

theorem buildTree_mem_source (reqs : List AddReq) (t0 : List (String × String))
    (c p : String) (h : (c, p) ∈ reqs.foldl sysAdd t0) :
    (c, p) ∈ t0 ∨
      ∃ r ∈ reqs, r.child = c ∧ r.parent = p ∧ r.ex c = true ∧ r.ex p = true ∧ c ≠ p := by
  induction reqs generalizing t0 with
  | nil => exact Or.inl h
  | cons r rs ih =>
    simp only [List.foldl_cons] at h
    rcases ih (sysAdd t0 r) h with h1 | h2
    · unfold sysAdd at h1
      split_ifs at h1 with hex hne hmem
      · exact Or.inl h1
      · rcases List.mem_append.mp h1 with hh | hh
        · exact Or.inl hh
        · rcases List.mem_singleton.mp hh with heq
          obtain ⟨hc, hp⟩ := Prod.mk.injEq _ _ _ _ ▸ heq
          rcases Bool.and_eq_true (r.ex r.child) (r.ex r.parent) |>.mp hex with ⟨hec, hep⟩
          refine Or.inr ⟨r, List.mem_cons_self r rs, ?_, ?_, ?_, ?_, ?_⟩
          · exact hc.symm
          · exact hp.symm
          · rw [hc]; exact hec
          · rw [hp]; exact hep
          · rw [hc, hp]; exact hne
      · exact Or.inl h1
      · exact Or.inl h1
    · obtain ⟨r', hr', hrest⟩ := h2
      exact Or.inr ⟨r', List.mem_cons_of_mem _ hr', hrest⟩

/-- C8: every edge present after a build (or forced rebuild, which starts
from an empty tree) was inserted by an add call whose existence re-check,
made immediately before the insertion, saw both the child and the parent
device in the device directory. -/
theorem C8_edges_exist_at_add_time (reqs : List AddReq) (c p : String)
    (h : (c, p) ∈ buildTree reqs) :
    ∃ r ∈ reqs, r.child = c ∧ r.parent = p ∧ r.ex c = true ∧ r.ex p = true ∧ c ≠ p := by
  rcases buildTree_mem_source reqs [] c p h with h0 | h1
  · cases h0
  · exact h1

/-- Witness for C8 on a one-request build whose snapshot sees both
devices. -/
theorem C8_edges_exist_at_add_time_witness :
    ("/dev/sda1", "/dev/sda") ∈ buildTree [wReq] ∧
    ∃ r ∈ [wReq], r.child = "/dev/sda1" ∧ r.parent = "/dev/sda" ∧
      r.ex "/dev/sda1" = true ∧ r.ex "/dev/sda" = true ∧ "/dev/sda1" ≠ "/dev/sda" :=
  ⟨by decide, C8_edges_exist_at_add_time [wReq] "/dev/sda1" "/dev/sda" (by decide)⟩

/-! ### C10: the release ordering is not total over installed kernels -/

theorem kernelGt_none_left (a b : Kernel) (h : a.release = none) :
    kernelGt a b = none := by
  simp [kernelGt, releaseParts, h]

theorem kernelGt_none_right (a b : Kernel) (h : b.release = none) :
    kernelGt a b = none := by
  cases ha : a.release <;> simp [kernelGt, releaseParts, h, ha]

theorem kernelLt_none_left (a b : Kernel) (h : a.release = none) :
    kernelLt a b = none := by
  simp [kernelLt, releaseParts, h]

theorem kernelLt_none_right (a b : Kernel) (h : b.release = none) :
    kernelLt a b = none := by
  cases ha : a.release <;> simp [kernelLt, releaseParts, h, ha]

theorem foldl_pyMaxStep_none (xs : List Kernel) : xs.foldl pyMaxStep none = none := by
  induction xs with
  | nil => rfl
  | cons x rest ih => simpa [pyMaxStep] using ih

theorem pyMax1_unversioned (y : Kernel) (xs : List Kernel) (k : Kernel)
    (hk : k.release = none) (h : (k = y ∧ xs ≠ []) ∨ k ∈ xs) : pyMax1 y xs = none := by
  induction xs generalizing y with
  | nil =>
    rcases h with ⟨_, hne⟩ | hm
    · exact absurd rfl hne
    · cases hm
  | cons x rest ih =>
    show (x :: rest).foldl pyMaxStep (some y) = none
    simp only [List.foldl_cons]
    rcases h with ⟨hky, _⟩ | hm
    · subst hky
      rw [show pyMaxStep (some k) x = none by
        simp [pyMaxStep, kernelGt_none_right x k hk]]
      exact foldl_pyMaxStep_none rest
    · rcases List.mem_cons.mp hm with hkx | hmrest
      · subst hkx
        rw [show pyMaxStep (some y) k = none by
          simp [pyMaxStep, kernelGt_none_left k y hk]]
        exact foldl_pyMaxStep_none rest
      · cases hgt : kernelGt x y with
        | none =>
          rw [show pyMaxStep (some y) x = none by simp [pyMaxStep, hgt]]
          exact foldl_pyMaxStep_none rest
        | some g =>
          rw [show pyMaxStep (some y) x = some (if g then x else y) by
            simp [pyMaxStep, hgt]]
          exact ih (if g then x else y) (Or.inr hmrest)

/-- C10: a Kernel can carry release = None; installed_kernels records the
bare boot file names vmlinux, vmlinuz, Image, zImage and bzImage under that
None release; every __lt__ / __gt__ comparison touching a None-release
kernel raises (AttributeError) instead of returning a boolean, so the
ordering is not total over what installed_kernels can return; and max over
an installed list that contains an unversioned kernel together with at
least one other kernel raises instead of selecting a default. -/
theorem C10_none_release_comparisons_raise (k k' : Kernel) (hk : k.release = none)
    (x : Kernel) (xs : List Kernel) (hmem : k = x ∨ k ∈ xs) :
    kernelLt k k' = none ∧ kernelLt k' k = none ∧
    kernelGt k k' = none ∧ kernelGt k' k = none ∧
    (∀ n ∈ bareKernelNames, (installedKernels [n] [] []).map Kernel.release = [none]) ∧
    (xs ≠ [] → pyMax1 x xs = none) := by
  refine ⟨kernelLt_none_left k k' hk, kernelLt_none_right k' k hk,
    kernelGt_none_left k k' hk, kernelGt_none_right k' k hk, by decide, fun hne => ?_⟩
  rcases hmem with hx | hxs
  · exact pyMax1_unversioned x xs k hk (Or.inl ⟨hx, hne⟩)
  · exact pyMax1_unversioned x xs k hk (Or.inr hxs)

/-- Witness for C10 at the unversioned kernel for a bare /boot/vmlinuz next
to an installed 5.9.0. -/
theorem C10_none_release_comparisons_raise_witness :
    kernelLt bareK (mkK "5.9.0") = none ∧ kernelLt (mkK "5.9.0") bareK = none ∧
    kernelGt bareK (mkK "5.9.0") = none ∧ kernelGt (mkK "5.9.0") bareK = none ∧
    (∀ n ∈ bareKernelNames, (installedKernels [n] [] []).map Kernel.release = [none]) ∧
    ([mkK "5.9.0"] ≠ ([] : List Kernel) → pyMax1 bareK [mkK "5.9.0"] = none) :=
  C10_none_release_comparisons_raise bareK (mkK "5.9.0") rfl bareK [mkK "5.9.0"]
    (Or.inl rfl)

/-! ### C7: physical_parents termination and results -/

theorem passStep_cycG : passStep cycG {"a"} = {"a"} := by
  have h1 : (({"a"} : Finset String) \ cycG.physicals) = {"a"} := by
    show ({"a"} : Finset String) \ ∅ = {"a"}
    exact Finset.sdiff_empty
  unfold passStep
  rw [h1, Finset.sort_singleton]
  simp only [List.foldl_cons, List.foldl_nil]
  rw [show cycG.parents "a" = {"a"} from rfl]
  simp

theorem loopFuel_cycG : ∀ n, loopFuel cycG n {"a"} = none
  | 0 => rfl
  | n + 1 => by
    have hne : ¬(({"a"} : Finset String) \ cycG.physicals = ∅) := by
      rw [show (({"a"} : Finset String) \ cycG.physicals) = {"a"} from Finset.sdiff_empty]
      exact Finset.singleton_ne_empty "a"
    rw [loopFuel, if_neg hne, passStep_cycG]
    exact loopFuel_cycG n

/-- C7 counterexample: on the graph with edges x -> a and a -> a and no
physical device, the physical_parents worklist loop never terminates (no
fuel bound suffices, even with every device construction succeeding),
because the loop keeps no record of already-visited devices. -/
theorem C7_physical_parents_cycle_counterexample :
    ¬ physicalParentsTerminates cycG wOk "x" := by
  rintro ⟨n, hn⟩
  have hx : ("x" : String) ∉ cycG.physicals := Finset.not_mem_empty "x"
  rw [physicalParentsFuel, if_neg hx,
    show cycG.parents "x" = {"a"} from rfl, loopFuel_cycG n] at hn
  simp at hn

theorem foldl_erase_union_mem (g : DevGraph) (L : List String) (X : Finset String)
    (q : String) (hq : q ∈ L.foldl (fun Y p => (Y.erase p) ∪ g.parents p) X) :
    (q ∈ X ∧ q ∉ L) ∨ ∃ p ∈ L, q ∈ g.parents p := by
  induction L generalizing X with
  | nil => exact Or.inl ⟨hq, by simp⟩
  | cons p ps ih =>
    simp only [List.foldl_cons] at hq
    rcases ih _ hq with ⟨hqx, hql⟩ | ⟨p1, hp1, hq1⟩
    · rcases Finset.mem_union.mp hqx with hqe | hqp
      · obtain ⟨hne, hqX⟩ := Finset.mem_erase.mp hqe
        exact Or.inl ⟨hqX, by simp [hne, hql]⟩
      · exact Or.inr ⟨p, by simp, hqp⟩
    · exact Or.inr ⟨p1, by simp [hp1], hq1⟩

theorem foldl_erase_union_reaches (g : DevGraph) (L : List String) (X : Finset String)
    (hL : ∀ p ∈ L, p ∉ g.physicals) (hX : ∃ y ∈ X, ReachesPhysical g y) :
    ∃ y ∈ L.foldl (fun Y p => (Y.erase p) ∪ g.parents p) X, ReachesPhysical g y := by
  induction L generalizing X with
  | nil => simpa using hX
  | cons p ps ih =>
    simp only [List.foldl_cons]
    refine ih _ (fun p1 hp1 => hL p1 (List.mem_cons_of_mem _ hp1)) ?_
    obtain ⟨y, hyX, hyR⟩ := hX
    by_cases hyp : y = p
    · subst hyp
      have hnp : y ∉ g.physicals := hL y (List.mem_cons_self _ _)
      obtain ⟨q, hreach, hqphys⟩ := hyR
      cases hreach with
      | refl => exact absurd hqphys hnp
      | step hp1 hr1 => exact ⟨_, Finset.mem_union_right _ hp1, ⟨q, hr1, hqphys⟩⟩
    · exact ⟨y, Finset.mem_union_left _ (Finset.mem_erase.mpr ⟨hyp, hyX⟩), hyR⟩

theorem passStep_mem (g : DevGraph) (X : Finset String) (q : String)
    (hq : q ∈ passStep g X) (hqn : q ∉ g.physicals) :
    ∃ p ∈ X \ g.physicals, q ∈ g.parents p := by
  rcases foldl_erase_union_mem g _ X q hq with ⟨hqX, hqL⟩ | ⟨p, hpL, hqp⟩
  · exact absurd ((Finset.mem_sort _).mpr (Finset.mem_sdiff.mpr ⟨hqX, hqn⟩)) hqL
  · exact ⟨p, (Finset.mem_sort _).mp hpL, hqp⟩

theorem passStep_reaches (g : DevGraph) (X : Finset String)
    (hX : ∃ y ∈ X, ReachesPhysical g y) :
    ∃ y ∈ passStep g X, ReachesPhysical g y := by
  apply foldl_erase_union_reaches
  · intro p hp
    exact (Finset.mem_sdiff.mp ((Finset.mem_sort _).mp hp)).2
  · exact hX

theorem passStep_sup_lt (g : DevGraph) (X : Finset String) (rank : String → Nat)
    (hrank : ∀ c, c ∉ g.physicals → ∀ p ∈ g.parents c, rank p < rank c)
    (hS : (passStep g X \ g.physicals).Nonempty) :
    (passStep g X \ g.physicals).sup rank < (X \ g.physicals).sup rank := by
  have hbot : (⊥ : Nat) < (X \ g.physicals).sup rank := by
    obtain ⟨q, hq⟩ := hS
    obtain ⟨hqP, hqn⟩ := Finset.mem_sdiff.mp hq
    obtain ⟨p, hpS, hqp⟩ := passStep_mem g X q hqP hqn
    have hpn := (Finset.mem_sdiff.mp hpS).2
    have h1 : rank q < rank p := hrank p hpn q hqp
    have h2 : rank p ≤ (X \ g.physicals).sup rank := Finset.le_sup hpS
    simp only [bot_eq_zero]
    omega
  rw [Finset.sup_lt_iff hbot]
  intro q hq
  obtain ⟨hqP, hqn⟩ := Finset.mem_sdiff.mp hq
  obtain ⟨p, hpS, hqp⟩ := passStep_mem g X q hqP hqn
  have hpn := (Finset.mem_sdiff.mp hpS).2
  have h1 : rank q < rank p := hrank p hpn q hqp
  have h2 : rank p ≤ (X \ g.physicals).sup rank := Finset.le_sup hpS
  omega

theorem loopFuel_isSome (g : DevGraph) (rank : String → Nat)
    (hrank : ∀ c, c ∉ g.physicals → ∀ p ∈ g.parents c, rank p < rank c) :
    ∀ k (X : Finset String), (X \ g.physicals).sup rank ≤ k →
      (loopFuel g (k + 2) X).isSome := by
  intro k
  induction k with
  | zero =>
    intro X hX
    by_cases hS : X \ g.physicals = ∅
    · simp [loopFuel, hS]
    · rw [show (0 + 2) = 1 + 1 from rfl, loopFuel, if_neg hS]
      by_cases hS1 : passStep g X \ g.physicals = ∅
      · simp [loopFuel, hS1]
      · exfalso
        have hlt := passStep_sup_lt g X rank hrank (Finset.nonempty_iff_ne_empty.mpr hS1)
        omega
  | succ k ih =>
    intro X hX
    by_cases hS : X \ g.physicals = ∅
    · simp [loopFuel, hS]
    · rw [show (k + 1 + 2) = (k + 2) + 1 from rfl, loopFuel, if_neg hS]
      by_cases hS1 : passStep g X \ g.physicals = ∅
      · rw [show (k + 2) = (k + 1) + 1 from rfl, loopFuel, if_pos hS1]
        rfl
      · have hlt := passStep_sup_lt g X rank hrank (Finset.nonempty_iff_ne_empty.mpr hS1)
        exact ih (passStep g X) (by omega)

theorem loopFuel_reaches (g : DevGraph) :
    ∀ n (X X' : Finset String), (∃ y ∈ X, ReachesPhysical g y) →
      loopFuel g n X = some X' → ∃ y ∈ X', ReachesPhysical g y := by
  intro n
  induction n with
  | zero => intro X X' _ h; cases h
  | succ n ih =>
    intro X X' hX h
    rw [loopFuel] at h
    split_ifs at h with hS
    · cases h; exact hX
    · exact ih _ _ (passStep_reaches g X hX) h

theorem loopFuel_final (g : DevGraph) :
    ∀ n (X X' : Finset String), loopFuel g n X = some X' → X' \ g.physicals = ∅ := by
  intro n
  induction n with
  | zero => intro X X' h; cases h
  | succ n ih =>
    intro X X' h
    rw [loopFuel] at h
    split_ifs at h with hS
    · cases h; exact hS
    · exact ih _ _ h

/-- C7 (amended): physical_parents(deviceX) returns exactly [deviceX] when
deviceX is classified physical, for every graph, cyclic ones included.  On
every graph whose child-to-parent edges out of non-physical devices admit a
strictly decreasing rank (so there is no cycle among non-physical devices),
the worklist terminates; if moreover every physical device name still
constructs successfully (the source discards, via try/except, surviving
names whose DiskDevice construction fails), the result is non-empty
whenever some physical ancestor is reachable from deviceX. -/
theorem C7_physical_parents_amended (g : DevGraph) (devOk : String → Bool) (x : String) :
    (x ∈ g.physicals → ∀ n, physicalParentsFuel g devOk x n = some [x]) ∧
    (∀ rank : String → Nat,
      (∀ c, c ∉ g.physicals → ∀ p ∈ g.parents c, rank p < rank c) →
      physicalParentsTerminates g devOk x ∧
      ((∀ y ∈ g.physicals, devOk y = true) → ReachesPhysical g x →
        ∀ n r, physicalParentsFuel g devOk x n = some r → r ≠ [])) := by
  refine ⟨fun hx n => by simp [physicalParentsFuel, hx], ?_⟩
  intro rank hrank
  constructor
  · by_cases hx : x ∈ g.physicals
    · exact ⟨0, by simp [physicalParentsFuel, hx]⟩
    · refine ⟨(g.parents x \ g.physicals).sup rank + 2, ?_⟩
      rw [physicalParentsFuel, if_neg hx]
      have hsome := loopFuel_isSome g rank hrank ((g.parents x \ g.physicals).sup rank)
        (g.parents x) le_rfl
      rcases Option.isSome_iff_exists.mp hsome with ⟨X1, hX1⟩
      simp [hX1]
  · intro hOk hreach n r hr
    by_cases hx : x ∈ g.physicals
    · rw [physicalParentsFuel, if_pos hx] at hr
      cases hr
      simp
    · rw [physicalParentsFuel, if_neg hx] at hr
      cases hL : loopFuel g n (g.parents x) with
      | none => rw [hL] at hr; cases hr
      | some X1 =>
        rw [hL] at hr
        obtain ⟨q, hq, hqp⟩ := hreach
        cases hq with
        | refl => exact absurd hqp hx
        | step hp1 hr1 =>
          have hinit : ∃ y ∈ g.parents x, ReachesPhysical g y :=
            ⟨_, hp1, ⟨q, hr1, hqp⟩⟩
          obtain ⟨y, hyX1, hyR⟩ := loopFuel_reaches g n _ X1 hinit hL
          have hyphys : y ∈ g.physicals := by
            have hsub := Finset.sdiff_eq_empty_iff_subset.mp (loopFuel_final g n _ X1 hL)
            exact hsub hyX1
          have hysort : y ∈ X1.sort (· ≤ ·) := (Finset.mem_sort _).mpr hyX1
          have hyfilter : y ∈ (X1.sort (· ≤ ·)).filter devOk :=
            List.mem_filter.mpr ⟨hysort, hOk y hyphys⟩
          have hrr : r = (X1.sort (· ≤ ·)).filter devOk := by
            simpa using hr.symm
          rw [hrr]
          exact List.ne_nil_of_mem hyfilter

/-- Witness for C7 on the acyclic graph dm0 -> sda with sda physical, using
the rank dm0 = 1, sda = 0 and every device construction succeeding. -/
theorem C7_physical_parents_amended_witness :
    (∀ n, physicalParentsFuel g7 wOk "sda" n = some ["sda"]) ∧
    physicalParentsTerminates g7 wOk "dm0" ∧
    (∀ n r, physicalParentsFuel g7 wOk "dm0" n = some r → r ≠ []) := by
  have hrank : ∀ c, c ∉ g7.physicals → ∀ p ∈ g7.parents c, rank7 p < rank7 c := by
    intro c hc p hp
    by_cases hcd : c = "dm0"
    · subst hcd
      have hps : p ∈ ({"sda"} : Finset String) := hp
      have hpe : p = "sda" := Finset.mem_singleton.mp hps
      subst hpe
      decide
    · exfalso
      have hemp : g7.parents c = ∅ := by
        show (if c = "dm0" then ({"sda"} : Finset String)
          else ∅) = ∅
        rw [if_neg hcd]
      rw [hemp] at hp
      exact absurd hp (Finset.not_mem_empty p)
  refine ⟨fun n =>
      (C7_physical_parents_amended g7 wOk "sda").1 (Finset.mem_singleton_self "sda") n,
    ((C7_physical_parents_amended g7 wOk "dm0").2 rank7 hrank).1,
    ((C7_physical_parents_amended g7 wOk "dm0").2 rank7 hrank).2
      (fun y hy => rfl) ?_⟩
  exact ⟨"sda", Reaches.step (Finset.mem_singleton_self "sda") (Reaches.refl "sda"),
    Finset.mem_singleton_self "sda"⟩

/-! ### C2: codename resolution returns a strict minimum -/

theorem scoreLtB_irrefl (a : CnScore) : scoreLtB a a = false := by
  obtain ⟨a1, a2⟩ := a
  rcases a2 with _ | x <;> simp [scoreLtB, secLtB]

theorem scoreLtB_asymm (a b : CnScore) (h : scoreLtB a b = true) :
    scoreLtB b a = false := by
  obtain ⟨a1, a2⟩ := a
  obtain ⟨b1, b2⟩ := b
  rcases a2 with _ | x <;> rcases b2 with _ | y <;>
    simp [scoreLtB, secLtB] at h ⊢ <;> omega

theorem scoreLtB_not_lt_trans (a b c : CnScore) (hab : scoreLtB a b = false)
    (hbc : scoreLtB b c = false) : scoreLtB a c = false := by
  obtain ⟨a1, a2⟩ := a
  obtain ⟨b1, b2⟩ := b
  obtain ⟨c1, c2⟩ := c
  rcases a2 with _ | x <;> rcases b2 with _ | y <;> rcases c2 with _ | z <;>
    simp [scoreLtB, secLtB] at hab hbc ⊢ <;> omega

theorem scoreLtB_trichotomy (a b : CnScore) :
    scoreLtB a b = true ∨ a = b ∨ scoreLtB b a = true := by
  obtain ⟨a1, a2⟩ := a
  obtain ⟨b1, b2⟩ := b
  rcases a2 with _ | x <;> rcases b2 with _ | y <;>
    simp [scoreLtB, secLtB, Prod.ext_iff] <;> omega

theorem minScore_mem (l : List CnScore) (init : CnScore) :
    minScore l init = init ∨ minScore l init ∈ l := by
  induction l generalizing init with
  | nil => exact Or.inl rfl
  | cons a l ih =>
    have step : minScore (a :: l) init = minScore l (if scoreLtB a init then a else init) := rfl
    rcases ih (if scoreLtB a init then a else init) with h | h
    · rw [step, h]
      by_cases hc : scoreLtB a init = true
      · rw [if_pos hc]; exact Or.inr (List.mem_cons_self a l)
      · rw [if_neg (by simpa using hc)]; exact Or.inl rfl
    · rw [step]
      exact Or.inr (List.mem_cons_of_mem a h)

theorem minScore_le (l : List CnScore) (init : CnScore) :
    scoreLtB init (minScore l init) = false ∧
      ∀ x ∈ l, scoreLtB x (minScore l init) = false := by
  induction l generalizing init with
  | nil => exact ⟨scoreLtB_irrefl init, by simp⟩
  | cons a l ih =>
    have step : minScore (a :: l) init = minScore l (if scoreLtB a init then a else init) := rfl
    by_cases hc : scoreLtB a init = true
    · obtain ⟨h1, h2⟩ := ih a
      rw [step, if_pos hc]
      refine ⟨scoreLtB_not_lt_trans init a _ (scoreLtB_asymm a init hc) h1, ?_⟩
      intro x hx
      rcases List.mem_cons.mp hx with rfl | hxl
      · exact h1
      · exact h2 x hxl
    · obtain ⟨h1, h2⟩ := ih init
      rw [step, if_neg (by simpa using hc)]
      refine ⟨h1, ?_⟩
      intro x hx
      rcases List.mem_cons.mp hx with rfl | hxl
      · exact scoreLtB_not_lt_trans x init _ (by simpa using hc) h1
      · exact h2 x hxl

/-- C2 (amended): whenever explicit-codename resolution returns a board,
that board is one of the catalog entries and its fuzzy suffix-match score is
strictly better than the score of every other item, the no-match sentinel
included; hence resolving B1's codename either returns B1 or fails, except
that it returns another entry B2 exactly when B2 strictly out-scores B1 and
everything else (for instance when B2's codename parts case-insensitively
suffix-consume B1's codename at a shallower section path). -/
theorem C2_codename_returns_strict_minimum (catalog : List (String × Board))
    (cn : String) (s : String) (b : Board)
    (h : boardByCodename catalog cn = .board s b) :
    (s, b) ∈ catalog ∧
      ∀ it ∈ cnItems catalog, it ≠ some (s, b) →
        scoreLtB (cnScore catalog (cnParts cn) (some (s, b)))
          (cnScore catalog (cnParts cn) it) = true := by
  rw [boardByCodename] at h
  by_cases h1 : (cnMatches catalog (cnParts cn) = [] ∨ none ∈ cnMatches catalog (cnParts cn))
  case pos => rw [if_pos h1] at h; cases h
  rw [if_neg h1] at h
  by_cases h2 : 1 < (cnMatches catalog (cnParts cn)).length
  case pos => rw [if_pos h2] at h; cases h
  rw [if_neg h2] at h
  · push_neg at h1
    obtain ⟨hne, hnone⟩ := h1
    have hlen : (cnMatches catalog (cnParts cn)).length = 1 := by
      have hpos : 0 < (cnMatches catalog (cnParts cn)).length := List.length_pos.mpr hne
      omega
    obtain ⟨it0, hit0⟩ := List.length_eq_one.mp hlen
    rw [hit0] at h hnone
    cases it0 with
    | none => simp at hnone
    | some sb =>
      obtain ⟨s1, b1⟩ := sb
      have h3 : BoardResult.board s1 b1 = BoardResult.board s b := h
      injection h3 with hs hb
      subst s1
      subst b1
      have hmem : some (s, b) ∈ cnMatches catalog (cnParts cn) := by
        rw [hit0]; exact List.mem_singleton_self _
      obtain ⟨hitems, hpred⟩ := List.mem_filter.mp hmem
      have hbest : cnScore catalog (cnParts cn) (some (s, b)) = cnBest catalog (cnParts cn) :=
        of_decide_eq_true hpred
      constructor
      · rcases List.mem_cons.mp hitems with hcontra | hmap
        · cases hcontra
        · obtain ⟨y, hy, hyeq⟩ := List.mem_map.mp hmap
          cases hyeq
          exact hy
      · intro it hit hne2
        have hub : scoreLtB (cnScore catalog (cnParts cn) it) (cnBest catalog (cnParts cn)) = false := by
          have := (minScore_le ((cnItems catalog).map (cnScore catalog (cnParts cn)))
            (cnScore catalog (cnParts cn) none)).2
          exact this _ (List.mem_map_of_mem _ hit)
        have hneq : cnScore catalog (cnParts cn) it ≠ cnBest catalog (cnParts cn) := by
          intro heq
          have hitm : it ∈ cnMatches catalog (cnParts cn) :=
            List.mem_filter.mpr ⟨hit, decide_eq_true heq⟩
          rw [hit0] at hitm
          exact hne2 (List.mem_singleton.mp hitm)
        rw [hbest]
        rcases scoreLtB_trichotomy (cnBest catalog (cnParts cn))
          (cnScore catalog (cnParts cn) it) with hlt | heq | hgt
        · exact hlt
        · exact absurd heq.symm hneq
        · exact absurd hgt (by simp [hub])

/-- Witness for C2 on a one-entry catalog: resolving reef returns that entry
and it strictly out-scores the sentinel. -/
theorem C2_codename_returns_strict_minimum_witness :
    boardByCodename wCatalog "reef" = .board "boards/x86/reef" wReef ∧
    (("boards/x86/reef", wReef) ∈ wCatalog ∧
      ∀ it ∈ cnItems wCatalog, it ≠ some ("boards/x86/reef", wReef) →
        scoreLtB (cnScore wCatalog (cnParts "reef") (some ("boards/x86/reef", wReef)))
          (cnScore wCatalog (cnParts "reef") it) = true) :=
  ⟨by decide,
    C2_codename_returns_strict_minimum wCatalog "reef" "boards/x86/reef" wReef (by decide)⟩

end DepthchargeTools
